import Mathlib

/-!
Shallow embedding of the UBI Chain `Runtime` (src/runtime/src/lib.rs) and
verification of its specification claims.

Modelling conventions, applied uniformly:

* `u64` values (balances, fee pool, dividend accumulators, timestamps) are
  modelled as `Nat`.  Overflow of the two unguarded `u64` multiplications in
  the dividend engine is analysed separately through `wrap64` (see
  `dividendIncreaseU64` and `newDividendsU64` below), matching the source's
  release-mode wrapping semantics exactly where a claim is about overflow.
* `SystemTime` is modelled as whole seconds since the Unix epoch (`Nat`);
  `duration_since(t).unwrap_or(0)` is exactly `Nat` truncated subtraction.
* `HashMap<String, _>` is modelled as an association list whose iteration
  order is the list order; lookups return the first matching key and inserts
  replace in place (or append for a fresh key).
* SHA-256 is modelled as an ideal collision-free hash: `Hash.leaf data`
  stands for `Sha256(data)` and `Hash.node l r` for `Sha256(l || r)`, with
  distinct inputs producing distinct digests (the idealization under which
  the specification's commitment properties are stated).
* Checkpoint files are token streams: one token per ordinary byte plus a
  single token for the 32-byte root-hash block.  Addresses admitted by the
  runtime are ASCII (`0x` + 40 hex characters), so UTF-8 encoding is the
  identity on their byte values; a stray byte `>= 0x80` is rejected exactly
  where `String::from_utf8` would fail on such a one-byte sequence.
-/

deriving instance DecidableEq for Except

/-- Constant `UBI_TOKENS_PER_HOUR` from the source (line 28). -/
def UBI_TOKENS_PER_HOUR : Nat := 1

/-- Constant `DIVIDEND_PRECISION` from the source (line 31): 10^9. -/
def DIVIDEND_PRECISION : Nat := 1000000000

/-- Lookup in an association list (model of `HashMap::get`). -/
def alookup {α : Type} (m : List (String × α)) (k : String) : Option α :=
  match m with
  | [] => none
  | (k', v) :: rest => if k' = k then some v else alookup rest k

/-- Lookup with default (model of `map.get(k).unwrap_or(&d)`). -/
def alookupD {α : Type} (m : List (String × α)) (k : String) (d : α) : α :=
  (alookup m k).getD d

/-- Insert or replace a binding (model of `HashMap::insert`). -/
def ainsert {α : Type} (m : List (String × α)) (k : String) (v : α) : List (String × α) :=
  match m with
  | [] => [(k, v)]
  | (k', v') :: rest => if k' = k then (k, v) :: rest else (k', v') :: ainsert rest k v

/-- Update the value already bound to a key (model of mutating through
`HashMap::get_mut`); a missing key leaves the map unchanged. -/
def amodify {α : Type} (m : List (String × α)) (k : String) (f : α → α) : List (String × α) :=
  match m with
  | [] => []
  | (k', v') :: rest => if k' = k then (k', f v') :: rest else (k', v') :: amodify rest k f

/-- Rust `u8::is_ascii_hexdigit`. -/
def isAsciiHexDigit (c : Char) : Bool :=
  c.isDigit || ('a' ≤ c && c ≤ 'f') || ('A' ≤ c && c ≤ 'F')

/-- `is_valid_eth_address` (source lines 1228-1236): `0x` followed by exactly
40 hexadecimal characters. -/
def isValidEthAddress (address : String) : Bool :=
  match address.toList with
  | '0' :: 'x' :: rest => rest.length = 40 && rest.all isAsciiHexDigit
  | _ => false

/-- `AccountError` (source lines 431-439). -/
inductive AccountError where
  | alreadyExists
  | invalidAddress
  | other (msg : String)
deriving DecidableEq, Repr

/-- `Account` (source lines 470-483); `lastUbiClaim` in seconds since epoch. -/
structure Account where
  address : String
  balance : Nat
  verified : Bool
  lastUbiClaim : Nat
deriving DecidableEq, Repr

/-- `AccountState` (source lines 485-495), the Merkle leaf payload. -/
structure AccountState where
  baseBalance : Nat
  lastUpdate : Nat
  streamingRate : Nat
deriving DecidableEq, Repr

/-- Ideal model of a SHA-256 digest: `leaf data` is the digest of a byte
sequence, `node l r` the digest of the concatenation of two digests.  The
idealization makes the hash collision-free, which is the assumption under
which the spec states its commitment properties. -/
inductive Hash where
  | leaf : List Nat → Hash
  | node : Hash → Hash → Hash
deriving DecidableEq, Repr

/-- Little-endian byte encoding of a value into `n` bytes (model of
`to_le_bytes` for `u32`/`u64`). -/
def leBytes (n x : Nat) : List Nat :=
  (List.range n).map (fun i => x / 256 ^ i % 256)

/-- Little-endian byte decoding (model of `from_le_bytes`). -/
def leVal (bs : List Nat) : Nat :=
  bs.foldr (fun b acc => b + 256 * acc) 0

/-- `MerkleTree::serialize_account_state` (source lines 1312-1328): address
bytes, then `base_balance`, `last_update`, `streaming_rate` as 8 little-endian
bytes each. -/
def serializeAccountState (address : String) (st : AccountState) : List Nat :=
  (address.toList.map Char.toNat) ++ leBytes 8 st.baseBalance ++
    leBytes 8 st.lastUpdate ++ leBytes 8 st.streamingRate

/-- `MerkleTree` (source lines 1250-1258).  The stored `root` field of the
source is a cache always equal to the rebuild of `leaves`, so the model
recomputes it on demand (`MerkleTree.rootHash`). -/
structure MerkleTree where
  addressIndices : List (String × Nat)
  leaves : List Hash
deriving DecidableEq, Repr

/-- `MerkleTree::new` (source lines 1303-1309). -/
def MerkleTree.new : MerkleTree :=
  { addressIndices := [], leaves := [] }

/-- One pass of the bottom-up pairing loop in `MerkleTree::rebuild` (source
lines 1374-1397): combine adjacent nodes, keeping an odd leftover. -/
def pairLevel : List Hash → List Hash
  | [] => []
  | [x] => [x]
  | x :: y :: rest => Hash.node x y :: pairLevel rest

/-- Length of a paired level. -/
theorem pairLevel_length (l : List Hash) : (pairLevel l).length = (l.length + 1) / 2 := by
  induction l using pairLevel.induct with
  | case1 => simp [pairLevel]
  | case2 x => simp [pairLevel]
  | case3 x y rest ih => simp [pairLevel, ih]; omega

/-- Duplicate the last node when a level has odd size greater than one
(source lines 1392-1394). -/
def dupLastGtOne (l : List Hash) : List Hash :=
  if l.length % 2 = 1 ∧ 1 < l.length then l ++ l.getLast?.toList else l

theorem dupLastGtOne_length (l : List Hash) :
    (dupLastGtOne l).length =
      if l.length % 2 = 1 ∧ 1 < l.length then l.length + 1 else l.length := by
  unfold dupLastGtOne
  by_cases h : l.length % 2 = 1 ∧ 1 < l.length
  · have hne : l ≠ [] := by
      intro he; subst he; simp at h
    simp [h, List.getLast?_eq_getLast l hne]
  · simp [h]

/-- The `while nodes.len() > 1` loop of `MerkleTree::rebuild`, with explicit
fuel; the node count strictly decreases each iteration, so fuel equal to the
initial count (see `buildUp`) never runs out (`buildUp_loop_eq`). -/
def buildUpGo (fuel : Nat) (nodes : List Hash) : Option Hash :=
  match fuel with
  | 0 => nodes.head?
  | fuel + 1 =>
    if nodes.length ≤ 1 then nodes.head?
    else buildUpGo fuel (dupLastGtOne (pairLevel nodes))

/-- The `while nodes.len() > 1` loop of `MerkleTree::rebuild`. -/
def buildUp (nodes : List Hash) : Option Hash :=
  buildUpGo nodes.length nodes

theorem buildUpGo_fuel_irrel (f1 : Nat) : ∀ (f2 : Nat) (nodes : List Hash),
    nodes.length ≤ f1 → nodes.length ≤ f2 → buildUpGo f1 nodes = buildUpGo f2 nodes := by
  induction f1 with
  | zero =>
    intro f2 nodes h1 _
    have : nodes = [] := List.length_eq_zero.mp (Nat.le_zero.mp h1)
    subst this
    cases f2 <;> simp [buildUpGo]
  | succ f1 ih =>
    intro f2 nodes h1 h2
    cases f2 with
    | zero =>
      have : nodes = [] := List.length_eq_zero.mp (Nat.le_zero.mp h2)
      subst this
      simp [buildUpGo]
    | succ f2 =>
      simp only [buildUpGo]
      by_cases hle : nodes.length ≤ 1
      · simp [hle]
      · simp only [hle, if_false]
        have hlen : (dupLastGtOne (pairLevel nodes)).length < nodes.length := by
          rw [dupLastGtOne_length, pairLevel_length]
          split <;> omega
        exact ih f2 _ (by omega) (by omega)

/-- The fuel-based `buildUp` satisfies the source loop's equation: a level of
at most one node yields its head, otherwise pair up and continue. -/
theorem buildUp_loop_eq (nodes : List Hash) :
    buildUp nodes =
      if nodes.length ≤ 1 then nodes.head?
      else buildUp (dupLastGtOne (pairLevel nodes)) := by
  by_cases hle : nodes.length ≤ 1
  · simp only [hle, if_true]
    unfold buildUp
    rcases Nat.le_one_iff_eq_zero_or_eq_one.mp hle with h | h <;> rw [h] <;> simp [buildUpGo, h]
  · simp only [hle, if_false]
    unfold buildUp
    have hlen : (dupLastGtOne (pairLevel nodes)).length < nodes.length := by
      rw [dupLastGtOne_length, pairLevel_length]
      split <;> omega
    obtain ⟨k, hk⟩ : ∃ k, nodes.length = k + 1 := ⟨nodes.length - 1, by omega⟩
    rw [hk]
    simp only [buildUpGo, hle, if_false]
    exact buildUpGo_fuel_irrel k _ _ (by omega) (le_refl _)

/-- `MerkleTree::rebuild` (source lines 1350-1400) as a function from the
leaf sequence to the root: empty ⇒ no root; otherwise duplicate the last
leaf if the count is odd, then pair upwards. -/
def rebuildRoot (leaves : List Hash) : Option Hash :=
  match leaves with
  | [] => none
  | _ =>
    buildUp (if leaves.length % 2 = 1 then leaves ++ leaves.getLast?.toList else leaves)

/-- `MerkleTree::root_hash` (source lines 1403-1405). -/
def MerkleTree.rootHash (t : MerkleTree) : Option Hash :=
  rebuildRoot t.leaves

/-- `MerkleTree::update_account` (source lines 1331-1347): replace the leaf
in place for a known address, append for a fresh one. -/
def MerkleTree.updateAccount (t : MerkleTree) (address : String) (st : AccountState) : MerkleTree :=
  let leafHash := Hash.leaf (serializeAccountState address st)
  match alookup t.addressIndices address with
  | some i => { t with leaves := t.leaves.set i leafHash }
  | none =>
      { addressIndices := ainsert t.addressIndices address t.leaves.length,
        leaves := t.leaves ++ [leafHash] }

/-- The proof-walking loop of `MerkleTree::generate_proof` (source lines
1417-1439), faithfully including its use of the leaf array `leaves` for the
sibling at every level; fuel as in `buildUpGo` (the level size strictly
decreases, see `proofLoop_loop_eq`). -/
def proofLoopGo (fuel : Nat) (leaves : List Hash) (currentIndex levelSize levelStart : Nat) :
    List (Hash × Bool) :=
  match fuel with
  | 0 => []
  | fuel + 1 =>
    if levelSize ≤ 1 then []
    else
      let siblingIndex := if currentIndex % 2 = 0 then currentIndex + 1 else currentIndex - 1
      let step : List (Hash × Bool) :=
        if siblingIndex < levelStart + levelSize then
          if siblingIndex < leaves.length then
            [(leaves.getD siblingIndex (Hash.leaf []), decide (currentIndex % 2 = 0))]
          else []
        else []
      let newSize := (levelSize + 1) / 2
      step ++ proofLoopGo fuel leaves (levelStart + (currentIndex - levelStart) / 2) newSize
        (levelStart + newSize)

/-- The `while level_size > 1` walk of `generate_proof`. -/
def proofLoop (leaves : List Hash) (currentIndex levelSize levelStart : Nat) :
    List (Hash × Bool) :=
  proofLoopGo levelSize leaves currentIndex levelSize levelStart

theorem proofLoopGo_fuel_irrel (f1 : Nat) : ∀ (f2 : Nat) (leaves : List Hash)
    (currentIndex levelSize levelStart : Nat), levelSize ≤ f1 → levelSize ≤ f2 →
    proofLoopGo f1 leaves currentIndex levelSize levelStart =
      proofLoopGo f2 leaves currentIndex levelSize levelStart := by
  induction f1 with
  | zero =>
    intro f2 leaves ci ls lstart h1 _
    have hz : ls = 0 := Nat.le_zero.mp h1
    subst hz
    cases f2 <;> simp [proofLoopGo]
  | succ f1 ih =>
    intro f2 leaves ci ls lstart h1 h2
    cases f2 with
    | zero =>
      have hz : ls = 0 := Nat.le_zero.mp h2
      subst hz
      simp [proofLoopGo]
    | succ f2 =>
      simp only [proofLoopGo]
      by_cases hle : ls ≤ 1
      · simp [hle]
      · simp only [hle, if_false]
        rw [ih f2 leaves _ _ _ (by omega) (by omega)]

/-- The fuel-based `proofLoop` satisfies the source loop's equation. -/
theorem proofLoop_loop_eq (leaves : List Hash) (currentIndex levelSize levelStart : Nat) :
    proofLoop leaves currentIndex levelSize levelStart =
      if levelSize ≤ 1 then []
      else
        let siblingIndex := if currentIndex % 2 = 0 then currentIndex + 1 else currentIndex - 1
        let step : List (Hash × Bool) :=
          if siblingIndex < levelStart + levelSize then
            if siblingIndex < leaves.length then
              [(leaves.getD siblingIndex (Hash.leaf []), decide (currentIndex % 2 = 0))]
            else []
          else []
        let newSize := (levelSize + 1) / 2
        step ++ proofLoop leaves (levelStart + (currentIndex - levelStart) / 2) newSize
          (levelStart + newSize) := by
  by_cases hle : levelSize ≤ 1
  · unfold proofLoop
    rcases Nat.le_one_iff_eq_zero_or_eq_one.mp hle with h | h <;> subst h <;>
      simp [proofLoopGo, hle]
  · simp only [hle, if_false]
    obtain ⟨k, hk⟩ : ∃ k, levelSize = k + 1 := ⟨levelSize - 1, by omega⟩
    subst hk
    show proofLoopGo (k + 1) leaves currentIndex (k + 1) levelStart = _
    simp only [proofLoopGo, hle, if_false]
    unfold proofLoop
    congr 1
    exact proofLoopGo_fuel_irrel k ((k + 1 + 1) / 2) leaves _ _ _ (by omega) (le_refl _)

/-- `MerkleTree::generate_proof` (source lines 1408-1442). -/
def MerkleTree.generateProof (t : MerkleTree) (address : String) :
    Option (List (Hash × Bool)) :=
  match alookup t.addressIndices address with
  | none => none
  | some index => some (proofLoop t.leaves index t.leaves.length 0)

/-- `MerkleTree::verify_proof` (source lines 1445-1472): refold the leaf hash
through the proof and compare with the root. -/
def MerkleTree.verifyProof (root : Hash) (address : String) (st : AccountState)
    (proof : List (Hash × Bool)) : Bool :=
  let folded := proof.foldl
    (fun current p => if p.2 then Hash.node current p.1 else Hash.node p.1 current)
    (Hash.leaf (serializeAccountState address st))
  folded = root

/-- `StateCheckpoint` (source lines 566-586).  `rootHash = none` models the
all-zero `[0; 32]` array substituted when the tree has no root. -/
structure StateCheckpoint where
  timestamp : Nat
  rootHash : Option Hash
  accountCount : Nat
  totalSupply : Nat
  feePool : Nat
  filePath : String
deriving DecidableEq, Repr

/-- The shared state behind the `Runtime`'s mutexes (source lines 533-564 and
1476-1491 for the defaults). -/
structure RuntimeState where
  accounts : List (String × Account)
  feePool : Nat
  dividendPerToken : Nat
  totalSupply : Nat
  lastDividendPoints : List (String × Nat)
  unclaimedDividends : List (String × Nat)
  stateTree : MerkleTree
  checkpoints : List StateCheckpoint
  maxCheckpoints : Nat
  checkpointDir : String
deriving DecidableEq, Repr

/-- `Runtime::default` (source lines 1476-1491). -/
def RuntimeState.new : RuntimeState :=
  { accounts := [], feePool := 0, dividendPerToken := 0, totalSupply := 0,
    lastDividendPoints := [], unclaimedDividends := [],
    stateTree := MerkleTree.new, checkpoints := [], maxCheckpoints := 10,
    checkpointDir := "./checkpoints" }

/-- `Runtime::create_account` (source lines 669-695); `now` models
`SystemTime::now()`. -/
def createAccount (s : RuntimeState) (address : String) (now : Nat) :
    Except AccountError Account × RuntimeState :=
  if !isValidEthAddress address then (.error .invalidAddress, s)
  else
    match alookup s.accounts address with
    | some _ => (.error .alreadyExists, s)
    | none =>
        let account : Account :=
          { address := address, balance := 0, verified := true, lastUbiClaim := now }
        (.ok account, { s with accounts := ainsert s.accounts address account })

/-- `Runtime::is_account_verified` (source lines 644-651). -/
def isAccountVerified (s : RuntimeState) (address : String) : Bool :=
  match alookup s.accounts address with
  | some account => account.verified
  | none => false

/-- `Runtime::verify_account` (source lines 704-713). -/
def verifyAccount (s : RuntimeState) (address : String) : Bool × RuntimeState :=
  match alookup s.accounts address with
  | some _ =>
      (true, { s with accounts := amodify s.accounts address (fun a => { a with verified := true }) })
  | none => (false, s)

/-- `Runtime::update_ubi_balance` (source lines 722-747).  `duration_since`
with `unwrap_or(0)` is `Nat` truncated subtraction; the updated
`last_ubi_claim` is `now - elapsed % 3600`, preserving the sub-hour
remainder. -/
def updateUbiBalance (s : RuntimeState) (address : String) (now : Nat) :
    Nat × RuntimeState :=
  match alookup s.accounts address with
  | none => (0, s)
  | some account =>
    if account.verified then
      let elapsed := now - account.lastUbiClaim
      let hours := elapsed / 3600
      if hours > 0 then
        let tokensToAdd := hours * UBI_TOKENS_PER_HOUR
        let accounts' := amodify s.accounts address (fun a =>
          { a with balance := a.balance + tokensToAdd, lastUbiClaim := now - elapsed % 3600 })
        (tokensToAdd, { s with accounts := accounts' })
      else (0, s)
    else (0, s)

/-- `Runtime::distribute_fees` (source lines 758-780). -/
def distributeFees (s : RuntimeState) : Nat × RuntimeState :=
  if s.totalSupply = 0 ∨ s.feePool = 0 then (0, s)
  else
    let dividendIncrease := s.feePool * DIVIDEND_PRECISION / s.totalSupply
    (s.feePool,
      { s with dividendPerToken := s.dividendPerToken + dividendIncrease, feePool := 0 })

/-- `Runtime::update_account_dividends` (source lines 794-828). -/
def updateAccountDividends (s : RuntimeState) (address : String) : Nat × RuntimeState :=
  if !isValidEthAddress address then (0, s)
  else
    match alookup s.accounts address with
    | none => (0, s)
    | some account =>
      let currentDpt := s.dividendPerToken
      let pointDiff := currentDpt - alookupD s.lastDividendPoints address 0
      let newDividends := account.balance * pointDiff / DIVIDEND_PRECISION
      let lastPoints' := ainsert s.lastDividendPoints address currentDpt
      let unclaimed' :=
        if newDividends > 0 then
          ainsert s.unclaimedDividends address
            (alookupD s.unclaimedDividends address 0 + newDividends)
        else s.unclaimedDividends
      (newDividends,
        { s with lastDividendPoints := lastPoints', unclaimedDividends := unclaimed' })

/-- `Runtime::claim_dividends` (source lines 837-863). -/
def claimDividends (s : RuntimeState) (address : String) : Nat × RuntimeState :=
  if !isValidEthAddress address then (0, s)
  else
    let s1 := (updateAccountDividends s address).2
    let toClaim := alookupD s1.unclaimedDividends address 0
    if toClaim = 0 then (0, s1)
    else
      (toClaim,
        { s1 with unclaimedDividends := ainsert s1.unclaimedDividends address 0,
                  accounts := amodify s1.accounts address
                    (fun a => { a with balance := a.balance + toClaim }) })

/-- Claiming dividends for each address in turn, collecting the individual
claim amounts; drives the spec's "sum of claim_dividends across all k
accounts" scenario. -/
def claimAll (s : RuntimeState) : List String → List Nat × RuntimeState
  | [] => ([], s)
  | a :: rest =>
    let r := claimDividends s a
    let rs := claimAll r.2 rest
    (r.1 :: rs.1, rs.2)

/-- `Runtime::transfer_with_fee` (source lines 913-957); `now` models the
`SystemTime::now()` stamped on a freshly created recipient.  Errors are
returned before any mutation; the mutation order (sender debit, then
recipient credit or creation, then fee-pool credit) follows the source. -/
def transferWithFee (s : RuntimeState) (fromAddr toAddr : String) (amount : Nat)
    (now : Nat) : Except AccountError Unit × RuntimeState :=
  if !(isValidEthAddress fromAddr && isValidEthAddress toAddr) then
    (.error .invalidAddress, s)
  else
    let fee := amount / 100
    let transferAmount := amount - fee
    match alookup s.accounts fromAddr with
    | none => (.error (.other ("Sender account " ++ fromAddr ++ " not found")), s)
    | some sender =>
      if sender.balance < amount then
        (.error (.other "Insufficient balance for transfer"), s)
      else
        let accounts1 := amodify s.accounts fromAddr
          (fun a => { a with balance := a.balance - amount })
        let accounts2 :=
          match alookup accounts1 toAddr with
          | some _ => amodify accounts1 toAddr
              (fun a => { a with balance := a.balance + transferAmount })
          | none => accounts1 ++
              [(toAddr, { address := toAddr, balance := transferAmount,
                          verified := false, lastUbiClaim := now })]
        (.ok (), { s with accounts := accounts2, feePool := s.feePool + fee })

/-- `Runtime::get_fee_pool` (source lines 963-965). -/
def getFeePool (s : RuntimeState) : Nat :=
  s.feePool

/-- A token of a checkpoint file: an ordinary byte, or the 32-byte root-hash
block written at source line 1029 (kept as one token since digests are
modelled abstractly). -/
inductive FByte where
  | byte (v : Nat)
  | hashBlock (v : Option Hash)
deriving DecidableEq, Repr

/-- `u64::to_le_bytes` written to the file. -/
def writeU64 (x : Nat) : List FByte :=
  (leBytes 8 x).map FByte.byte

/-- `u32::to_le_bytes` written to the file. -/
def writeU32 (x : Nat) : List FByte :=
  (leBytes 4 x).map FByte.byte

/-- The per-account payload written by `create_checkpoint` (source lines
1035-1051): address length (u32), address bytes, balance (u64), verified flag
(one byte), last UBI claim in seconds (u64). -/
def serializeAccounts : List (String × Account) → List FByte
  | [] => []
  | (addr, acct) :: rest =>
      writeU32 addr.length ++ (addr.toList.map (fun c => FByte.byte c.toNat)) ++
        writeU64 acct.balance ++ [FByte.byte (if acct.verified then 1 else 0)] ++
        writeU64 acct.lastUbiClaim ++ serializeAccounts rest

/-- `read_exact` for `n` ordinary bytes: fails at end of input or on the
root-hash block (which the loader reads separately). -/
def readBytes : Nat → List FByte → Option (List Nat × List FByte)
  | 0, input => some ([], input)
  | n + 1, FByte.byte v :: rest =>
    match readBytes n rest with
    | some (vs, r) => some (v :: vs, r)
    | none => none
  | _ + 1, _ => none

/-- Read a `u64` (8 bytes, little endian). -/
def readU64 (input : List FByte) : Option (Nat × List FByte) :=
  match readBytes 8 input with
  | some (vs, r) => some (leVal vs, r)
  | none => none

/-- Read a `u32` (4 bytes, little endian). -/
def readU32 (input : List FByte) : Option (Nat × List FByte) :=
  match readBytes 4 input with
  | some (vs, r) => some (leVal vs, r)
  | none => none

/-- Read the 32-byte root-hash block. -/
def readHashBlock : List FByte → Option (Option Hash × List FByte)
  | FByte.hashBlock v :: rest => some (v, rest)
  | _ => none

/-- The account-reading loop of `load_checkpoint` (source lines 1130-1166),
inserting each decoded account into the (already cleared) map.  On a short
read or invalid UTF-8 it stops with `false`, exposing the partially rebuilt
map, exactly as the in-place mutation of the source does. -/
def readAccountsLoop : Nat → List FByte → List (String × Account) →
    Bool × List (String × Account) × List FByte
  | 0, input, acc => (true, acc, input)
  | n + 1, input, acc =>
    match readU32 input with
    | none => (false, acc, input)
    | some (addressLen, r1) =>
      match readBytes addressLen r1 with
      | none => (false, acc, r1)
      | some (addressBytes, r2) =>
        if addressBytes.any (fun v => 128 ≤ v) then (false, acc, r2)
        else
          let address := String.mk (addressBytes.map Char.ofNat)
          match readU64 r2 with
          | none => (false, acc, r2)
          | some (balance, r3) =>
            match readBytes 1 r3 with
            | none => (false, acc, r3)
            | some (verifiedBytes, r4) =>
              match readU64 r4 with
              | none => (false, acc, r4)
              | some (lastClaimSecs, r5) =>
                let account : Account :=
                  { address := address, balance := balance,
                    verified := verifiedBytes.headD 0 ≠ 0,
                    lastUbiClaim := lastClaimSecs }
                readAccountsLoop n r5 (ainsert acc address account)

/-- Feeding every account into the Merkle tree as an `AccountState` with
`base_balance` = ledger balance, `last_update` = the current clock, and
`streaming_rate` = 0 (source lines 987-999 and 1172-1183). -/
def treeAfterUpdates (t : MerkleTree) (accounts : List (String × Account)) (now : Nat) :
    MerkleTree :=
  accounts.foldl
    (fun tr p => tr.updateAccount p.1
      { baseBalance := p.2.balance, lastUpdate := now, streamingRate := 0 })
    t

/-- The `while checkpoints.len() > max_checkpoints` loop of
`Runtime::prune_checkpoints`, with fuel as in `buildUpGo`. -/
def pruneGo (fuel : Nat) (l : List StateCheckpoint) (maxC : Nat) : List StateCheckpoint :=
  match fuel with
  | 0 => l
  | fuel + 1 => if l.length ≤ maxC then l else pruneGo fuel l.tail maxC

/-- `Runtime::prune_checkpoints` (source lines 1189-1202), restricted to the
in-memory list (file deletion has no observable effect on runtime state). -/
def pruneCheckpoints (l : List StateCheckpoint) (maxC : Nat) : List StateCheckpoint :=
  pruneGo l.length l maxC

theorem pruneGo_fuel_irrel (f1 : Nat) : ∀ (f2 : Nat) (l : List StateCheckpoint) (maxC : Nat),
    l.length ≤ f1 → l.length ≤ f2 → pruneGo f1 l maxC = pruneGo f2 l maxC := by
  induction f1 with
  | zero =>
    intro f2 l maxC h1 _
    have : l = [] := List.length_eq_zero.mp (Nat.le_zero.mp h1)
    subst this
    cases f2 <;> simp [pruneGo]
  | succ f1 ih =>
    intro f2 l maxC h1 h2
    cases f2 with
    | zero =>
      have : l = [] := List.length_eq_zero.mp (Nat.le_zero.mp h2)
      subst this
      simp [pruneGo]
    | succ f2 =>
      simp only [pruneGo]
      by_cases hle : l.length ≤ maxC
      · simp [hle]
      · simp only [hle, if_false]
        have : l.tail.length < l.length := by
          cases l with
          | nil => simp at hle
          | cons x xs => simp
        exact ih f2 _ _ (by omega) (by omega)

/-- The fuel-based `pruneCheckpoints` satisfies the source loop's equation. -/
theorem pruneCheckpoints_loop_eq (l : List StateCheckpoint) (maxC : Nat) :
    pruneCheckpoints l maxC =
      if l.length ≤ maxC then l else pruneCheckpoints l.tail maxC := by
  by_cases hle : l.length ≤ maxC
  · rw [if_pos hle]
    unfold pruneCheckpoints
    cases hl : l.length with
    | zero => simp [pruneGo]
    | succ k =>
      simp only [pruneGo]
      rw [if_pos (hl ▸ hle)]
  · simp only [hle, if_false]
    unfold pruneCheckpoints
    have hne : l ≠ [] := by
      intro he; subst he; simp at hle
    obtain ⟨k, hk⟩ : ∃ k, l.length = k + 1 := ⟨l.length - 1, by
      cases l with
      | nil => simp_all
      | cons x xs => simp⟩
    rw [hk]
    simp only [pruneGo, hle, if_false]
    apply pruneGo_fuel_irrel
    · have : l.tail.length + 1 = l.length := by
        cases l with
        | nil => simp_all
        | cons x xs => simp
      omega
    · exact le_refl _

/-- `Runtime::create_checkpoint` (source lines 974-1070); `now` models
`SystemTime::now()` (used both as the checkpoint timestamp and as the
`last_update` of every Merkle leaf).  Returns the checkpoint, the file
written (`none` on the `!force` short-circuit), and the updated state. -/
def createCheckpoint (s : RuntimeState) (force : Bool) (now : Nat) :
    StateCheckpoint × Option (List FByte) × RuntimeState :=
  let tree := treeAfterUpdates s.stateTree s.accounts now
  let root := tree.rootHash
  let s1 := { s with stateTree := tree }
  let shortCircuit :=
    if force then none
    else match s.checkpoints.getLast? with
      | some last => if last.rootHash = root then some last else none
      | none => none
  match shortCircuit with
  | some last => (last, none, s1)
  | none =>
    let filePath := s.checkpointDir ++ "/checkpoint_" ++ toString now ++ ".dat"
    let file := writeU64 now ++ [FByte.hashBlock root] ++ writeU64 s.accounts.length ++
      writeU64 s.totalSupply ++ writeU64 s.feePool ++ serializeAccounts s.accounts
    let checkpoint : StateCheckpoint :=
      { timestamp := now, rootHash := root, accountCount := s.accounts.length,
        totalSupply := s.totalSupply, feePool := s.feePool, filePath := filePath }
    let checkpoints' := pruneCheckpoints (s1.checkpoints ++ [checkpoint]) s.maxCheckpoints
    (checkpoint, some file, { s1 with checkpoints := checkpoints' })

/-- `Runtime::load_checkpoint` (source lines 1079-1186).  `contents` is what
`File::open` + reads observe (`none`: the open itself fails); `nowLoad`
models `SystemTime::now()` during the Merkle rebuild.  State is threaded
explicitly: mutations performed before a failing read stay visible in the
returned state, mirroring the in-place mutation of the source. -/
def loadCheckpoint (s : RuntimeState) (checkpoint : StateCheckpoint)
    (contents : Option (List FByte)) (nowLoad : Nat) :
    Except String Unit × RuntimeState :=
  match contents with
  | none => (.error "file not found", s)
  | some f0 =>
    match readU64 f0 with
    | none => (.error "failed to fill whole buffer", s)
    | some (timestamp, f1) =>
      if timestamp ≠ checkpoint.timestamp then
        (.error "Checkpoint timestamp mismatch", s)
      else
        match readHashBlock f1 with
        | none => (.error "failed to fill whole buffer", s)
        | some (rootHash, f2) =>
          if rootHash ≠ checkpoint.rootHash then
            (.error "Checkpoint root hash mismatch", s)
          else
            match readU64 f2 with
            | none => (.error "failed to fill whole buffer", s)
            | some (accountCount, f3) =>
              match readU64 f3 with
              | none => (.error "failed to fill whole buffer", s)
              | some (totalSupply, f4) =>
                match readU64 f4 with
                | none => (.error "failed to fill whole buffer", s)
                | some (feePool, f5) =>
                  let s1 := { s with
                    accounts := [], feePool := feePool,
                    totalSupply := totalSupply, dividendPerToken := 0,
                    lastDividendPoints := [], unclaimedDividends := [] }
                  match readAccountsLoop accountCount f5 [] with
                  | (false, part, _) =>
                    (.error "failed to fill whole buffer", { s1 with accounts := part })
                  | (true, accts, _) =>
                    let tree := treeAfterUpdates MerkleTree.new accts nowLoad
                    (.ok (), { s1 with accounts := accts, stateTree := tree })

/-- `x mod 2^64`: the wrap-around of Rust release-mode `u64` arithmetic. -/
def wrap64 (x : Nat) : Nat :=
  x % 18446744073709551616

/-- Wrapping `u64` subtraction (two's complement). -/
def sub64 (a b : Nat) : Nat :=
  wrap64 (a + 18446744073709551616 - b)

/-- The `u64` computation of the dividend-per-token increase at source line
769: `(*fee_pool * DIVIDEND_PRECISION) / total_supply` with the wrapping
multiplication made explicit. -/
def dividendIncreaseU64 (feePool totalSupply : Nat) : Nat :=
  wrap64 (feePool * DIVIDEND_PRECISION) / totalSupply

/-- The `u64` computation of newly owed dividends at source lines 813-814:
`(balance * (dividend_per_token - last_point)) / DIVIDEND_PRECISION` with the
wrapping subtraction and multiplication made explicit. -/
def newDividendsU64 (balance dividendPerToken lastPoint : Nat) : Nat :=
  wrap64 (balance * sub64 dividendPerToken lastPoint) / DIVIDEND_PRECISION

theorem alookup_amodify_self {α : Type} (m : List (String × α)) (k : String) (f : α → α) :
    alookup (amodify m k f) k = (alookup m k).map f := by
  induction m with
  | nil => simp [alookup, amodify]
  | cons p rest ih =>
    obtain ⟨k', v'⟩ := p
    by_cases h : k' = k
    · subst h
      simp [alookup, amodify]
    · simp [alookup, amodify, h, ih]

theorem alookup_amodify_ne {α : Type} (m : List (String × α)) (k k' : String) (f : α → α)
    (h : k' ≠ k) : alookup (amodify m k f) k' = alookup m k' := by
  induction m with
  | nil => simp [alookup, amodify]
  | cons p rest ih =>
    obtain ⟨k0, v0⟩ := p
    by_cases h0 : k0 = k
    · subst h0
      simp [alookup, amodify, Ne.symm h]
    · simp only [amodify, if_neg h0, alookup]
      by_cases h1 : k0 = k'
      · simp [h1]
      · simp [h1, ih]

theorem alookup_ainsert_self {α : Type} (m : List (String × α)) (k : String) (v : α) :
    alookup (ainsert m k v) k = some v := by
  induction m with
  | nil => simp [alookup, ainsert]
  | cons p rest ih =>
    obtain ⟨k0, v0⟩ := p
    by_cases h0 : k0 = k
    · subst h0
      simp [alookup, ainsert]
    · simp [alookup, ainsert, h0, ih]

theorem alookup_ainsert_ne {α : Type} (m : List (String × α)) (k k' : String) (v : α)
    (h : k' ≠ k) : alookup (ainsert m k v) k' = alookup m k' := by
  induction m with
  | nil => simp [alookup, ainsert, Ne.symm h]
  | cons p rest ih =>
    obtain ⟨k0, v0⟩ := p
    by_cases h0 : k0 = k
    · subst h0
      simp [alookup, ainsert, Ne.symm h]
    · simp only [ainsert, if_neg h0, alookup]
      by_cases h1 : k0 = k'
      · simp [h1]
      · simp [h1, ih]

theorem alookup_append_of_none {α : Type} (m l : List (String × α)) (k : String)
    (h : alookup m k = none) : alookup (m ++ l) k = alookup l k := by
  induction m with
  | nil => simp
  | cons p rest ih =>
    obtain ⟨k0, v0⟩ := p
    by_cases h0 : k0 = k
    · simp [alookup, h0] at h
    · simp only [alookup, if_neg h0] at h
      simp [alookup, h0, ih h]

theorem alookup_append_of_some {α : Type} (m l : List (String × α)) (k : String) (v : α)
    (h : alookup m k = some v) : alookup (m ++ l) k = some v := by
  induction m with
  | nil => simp [alookup] at h
  | cons p rest ih =>
    obtain ⟨k0, v0⟩ := p
    by_cases h0 : k0 = k
    · simp only [alookup, if_pos h0] at h
      simp [alookup, h0, h]
    · simp only [alookup, if_neg h0] at h
      simp [alookup, h0, ih h]

theorem alookup_of_mem_nodup {α : Type} (m : List (String × α)) (k : String) (v : α)
    (hmem : (k, v) ∈ m) (hnodup : (m.map Prod.fst).Nodup) : alookup m k = some v := by
  induction m with
  | nil => simp at hmem
  | cons p rest ih =>
    obtain ⟨k0, v0⟩ := p
    simp only [List.map_cons, List.nodup_cons] at hnodup
    rcases List.mem_cons.mp hmem with h | h
    · rw [show k0 = k from (congrArg Prod.fst h).symm,
        show v0 = v from (congrArg Prod.snd h).symm]
      simp [alookup]
    · have hk0 : k0 ≠ k := by
        intro he
        subst he
        exact hnodup.1 (List.mem_map.mpr ⟨(k0, v), h, rfl⟩)
      simp [alookup, hk0, ih h hnodup.2]

/-- A valid address used in concrete instances. -/
def addr1 : String := "0x1111111111111111111111111111111111111111"

/-- A second valid address used in concrete instances. -/
def addr2 : String := "0x2222222222222222222222222222222222222222"

/-- A third valid address used in concrete instances. -/
def addr3 : String := "0x3333333333333333333333333333333333333333"

/-- A one-account state (balance 1000) used in concrete instances. -/
def oneAccountState : RuntimeState := { RuntimeState.new with
  accounts := [(addr1, { address := addr1, balance := 1000, verified := true, lastUbiClaim := 0 })],
  totalSupply := 1000 }

/-- Claim C1 (amended: the sender and recipient addresses must be distinct;
for a self-transfer the account's net change is a decrease of exactly the
fee, see the counterexample): a successful `transfer_with_fee(from, to,
amount)` with `from ≠ to` decreases the sender's balance by exactly
`amount`, increases the recipient's balance by exactly `amount - amount/100`
(creating the recipient with that balance if absent), adds exactly
`amount/100` to the fee pool, and changes no other balance or dividend
state. -/
theorem C1_transfer_conservation (s : RuntimeState) (fromAddr toAddr : String)
    (amount now : Nat) (sender : Account)
    (hvf : isValidEthAddress fromAddr = true)
    (hvt : isValidEthAddress toAddr = true)
    (hne : fromAddr ≠ toAddr)
    (hs : alookup s.accounts fromAddr = some sender)
    (hbal : amount ≤ sender.balance) :
    (transferWithFee s fromAddr toAddr amount now).1 = Except.ok () ∧
    alookup (transferWithFee s fromAddr toAddr amount now).2.accounts fromAddr =
      some { sender with balance := sender.balance - amount } ∧
    (∀ recAcct, alookup s.accounts toAddr = some recAcct →
      alookup (transferWithFee s fromAddr toAddr amount now).2.accounts toAddr =
        some { recAcct with balance := recAcct.balance + (amount - amount / 100) }) ∧
    (alookup s.accounts toAddr = none →
      alookup (transferWithFee s fromAddr toAddr amount now).2.accounts toAddr =
        some { address := toAddr, balance := amount - amount / 100, verified := false,
               lastUbiClaim := now }) ∧
    (transferWithFee s fromAddr toAddr amount now).2.feePool = s.feePool + amount / 100 ∧
    (∀ a, a ≠ fromAddr → a ≠ toAddr →
      alookup (transferWithFee s fromAddr toAddr amount now).2.accounts a =
        alookup s.accounts a) ∧
    (transferWithFee s fromAddr toAddr amount now).2.dividendPerToken = s.dividendPerToken ∧
    (transferWithFee s fromAddr toAddr amount now).2.totalSupply = s.totalSupply ∧
    (transferWithFee s fromAddr toAddr amount now).2.unclaimedDividends = s.unclaimedDividends := by
  have hnlt : ¬ sender.balance < amount := Nat.not_lt.mpr hbal
  have hto_pre : alookup (amodify s.accounts fromAddr
      (fun a => { a with balance := a.balance - amount })) toAddr = alookup s.accounts toAddr :=
    alookup_amodify_ne _ _ _ _ (Ne.symm hne)
  cases hto : alookup s.accounts toAddr with
  | some recAcct =>
    have key : transferWithFee s fromAddr toAddr amount now =
        (Except.ok (), { s with
          accounts := amodify (amodify s.accounts fromAddr
              (fun a => { a with balance := a.balance - amount })) toAddr
            (fun a => { a with balance := a.balance + (amount - amount / 100) }),
          feePool := s.feePool + amount / 100 }) := by
      unfold transferWithFee
      rw [hvf, hvt, hs]
      simp only [Bool.and_self, Bool.not_true, Bool.false_eq_true, if_false, hnlt,
        hto_pre, hto]
    refine ⟨by rw [key], ?_, ?_, ?_, by rw [key], ?_, by rw [key], by rw [key], by rw [key]⟩
    · rw [key]
      show alookup (amodify _ toAddr _) fromAddr = _
      rw [alookup_amodify_ne _ _ _ _ hne, alookup_amodify_self, hs]
      rfl
    · intro recAcct' hto'
      have heq : recAcct' = recAcct := (Option.some.inj hto').symm
      subst heq
      rw [key]
      show alookup (amodify _ toAddr _) toAddr = _
      rw [alookup_amodify_self, hto_pre, hto]
      rfl
    · intro hnone
      exact Option.noConfusion hnone
    · intro a haf hat
      rw [key]
      show alookup (amodify _ toAddr _) a = _
      rw [alookup_amodify_ne _ _ _ _ hat, alookup_amodify_ne _ _ _ _ haf]
  | none =>
    have hto1 : alookup (amodify s.accounts fromAddr
        (fun a => { a with balance := a.balance - amount })) toAddr = none := by
      rw [hto_pre, hto]
    have key : transferWithFee s fromAddr toAddr amount now =
        (Except.ok (), { s with
          accounts := amodify s.accounts fromAddr
              (fun a => { a with balance := a.balance - amount }) ++
            [(toAddr, { address := toAddr, balance := amount - amount / 100,
                        verified := false, lastUbiClaim := now })],
          feePool := s.feePool + amount / 100 }) := by
      unfold transferWithFee
      rw [hvf, hvt, hs]
      simp only [Bool.and_self, Bool.not_true, Bool.false_eq_true, if_false, hnlt, hto1]
    refine ⟨by rw [key], ?_, ?_, ?_, by rw [key], ?_, by rw [key], by rw [key], by rw [key]⟩
    · rw [key]
      show alookup (_ ++ _) fromAddr = _
      rw [alookup_append_of_some _ _ _ ({ sender with balance := sender.balance - amount })]
      rw [alookup_amodify_self, hs]
      rfl
    · intro recAcct' hto'
      exact Option.noConfusion hto'
    · intro _
      rw [key]
      show alookup (_ ++ _) toAddr = _
      rw [alookup_append_of_none _ _ _ hto1]
      simp [alookup]
    · intro a haf hat
      rw [key]
      show alookup (_ ++ _) a = _
      cases ha : alookup (amodify s.accounts fromAddr
          (fun x => { x with balance := x.balance - amount })) a with
      | some v =>
        rw [alookup_append_of_some _ _ _ _ ha, ← ha, alookup_amodify_ne _ _ _ _ haf]
      | none =>
        rw [alookup_append_of_none _ _ _ ha]
        rw [alookup_amodify_ne _ _ _ _ haf] at ha
        rw [ha]
        simp [alookup, Ne.symm hat]

/-- Claim C1 counterexample: a self-transfer (`from = to`) with amount 100
from a balance of 1000 succeeds, yet the sender's balance afterwards is 999
— a decrease of only the fee (1), not of the amount (100) as the claim
states for every successful transfer. -/
theorem C1_self_transfer_counterexample :
    (transferWithFee oneAccountState addr1 addr1 100 0).1 = Except.ok () ∧
    alookup (transferWithFee oneAccountState addr1 addr1 100 0).2.accounts addr1 =
      some { address := addr1, balance := 999, verified := true, lastUbiClaim := 0 } ∧
    ¬((999 : Nat) = 1000 - 100) := by
  refine ⟨by decide, by decide, by decide⟩

/-- Claim C1 witness: the amended conservation theorem applied to a concrete
transfer of 100 tokens from `addr1` (balance 1000) to the fresh `addr2`. -/
theorem C1_witness :
    (transferWithFee oneAccountState addr1 addr2 100 5).1 = Except.ok () ∧
    (transferWithFee oneAccountState addr1 addr2 100 5).2.feePool =
      oneAccountState.feePool + 100 / 100 ∧
    alookup (transferWithFee oneAccountState addr1 addr2 100 5).2.accounts addr2 =
      some { address := addr2, balance := 100 - 100 / 100, verified := false,
             lastUbiClaim := 5 } := by
  have h := C1_transfer_conservation oneAccountState addr1 addr2 100 5
    { address := addr1, balance := 1000, verified := true, lastUbiClaim := 0 }
    (by decide) (by decide) (by decide) (by decide) (by decide)
  exact ⟨h.1, h.2.2.2.2.1, h.2.2.2.1 (by decide)⟩

/-- Helper: the positive branch of `update_ubi_balance` as one equation. -/
theorem updateUbiBalance_grant_eq (s : RuntimeState) (addr : String) (now : Nat)
    (acct : Account) (hacct : alookup s.accounts addr = some acct)
    (hver : acct.verified = true) (hhrs : 0 < (now - acct.lastUbiClaim) / 3600) :
    updateUbiBalance s addr now =
      ((now - acct.lastUbiClaim) / 3600 * UBI_TOKENS_PER_HOUR,
        { s with accounts := amodify s.accounts addr (fun a =>
          { a with
            balance := a.balance + (now - acct.lastUbiClaim) / 3600 * UBI_TOKENS_PER_HOUR,
            lastUbiClaim := now - (now - acct.lastUbiClaim) % 3600 }) }) := by
  unfold updateUbiBalance
  rw [hacct]
  simp [hver, hhrs]

/-- Claim C6: `update_ubi_balance` on a verified existing account grants
exactly the whole hours elapsed times one token per hour, advances the claim
clock by exactly those whole hours (preserving the sub-hour remainder), is a
no-op (returning 0) for unknown or unverified accounts or when less than one
hour elapsed, and consequently a second call within the same hour grants
nothing. -/
theorem C6_ubi_streaming :
    (∀ (s : RuntimeState) (addr : String) (now : Nat),
      alookup s.accounts addr = none → updateUbiBalance s addr now = (0, s)) ∧
    (∀ (s : RuntimeState) (addr : String) (now : Nat) (acct : Account),
      alookup s.accounts addr = some acct → acct.verified = false →
      updateUbiBalance s addr now = (0, s)) ∧
    (∀ (s : RuntimeState) (addr : String) (now : Nat) (acct : Account),
      alookup s.accounts addr = some acct → now - acct.lastUbiClaim < 3600 →
      updateUbiBalance s addr now = (0, s)) ∧
    (∀ (s : RuntimeState) (addr : String) (now : Nat) (acct : Account),
      alookup s.accounts addr = some acct → acct.verified = true →
      acct.lastUbiClaim ≤ now → 3600 ≤ now - acct.lastUbiClaim →
      (updateUbiBalance s addr now).1 =
        (now - acct.lastUbiClaim) / 3600 * UBI_TOKENS_PER_HOUR ∧
      alookup (updateUbiBalance s addr now).2.accounts addr =
        some { acct with
          balance := acct.balance + (now - acct.lastUbiClaim) / 3600 * UBI_TOKENS_PER_HOUR,
          lastUbiClaim := acct.lastUbiClaim + 3600 * ((now - acct.lastUbiClaim) / 3600) } ∧
      (∀ a, a ≠ addr →
        alookup (updateUbiBalance s addr now).2.accounts a = alookup s.accounts a)) ∧
    (∀ (s : RuntimeState) (addr : String) (now now2 : Nat) (acct : Account),
      alookup s.accounts addr = some acct → acct.verified = true →
      acct.lastUbiClaim ≤ now → 3600 ≤ now - acct.lastUbiClaim →
      now2 < acct.lastUbiClaim + 3600 * ((now - acct.lastUbiClaim) / 3600) + 3600 →
      (updateUbiBalance (updateUbiBalance s addr now).2 addr now2).1 = 0) := by
  have habsent : ∀ (s : RuntimeState) (addr : String) (now : Nat),
      alookup s.accounts addr = none → updateUbiBalance s addr now = (0, s) := by
    intro s addr now h
    unfold updateUbiBalance
    rw [h]
  have hunver : ∀ (s : RuntimeState) (addr : String) (now : Nat) (acct : Account),
      alookup s.accounts addr = some acct → acct.verified = false →
      updateUbiBalance s addr now = (0, s) := by
    intro s addr now acct h hver
    unfold updateUbiBalance
    rw [h]
    simp [hver]
  have hsub : ∀ (s : RuntimeState) (addr : String) (now : Nat) (acct : Account),
      alookup s.accounts addr = some acct → now - acct.lastUbiClaim < 3600 →
      updateUbiBalance s addr now = (0, s) := by
    intro s addr now acct h hlt
    have hz : (now - acct.lastUbiClaim) / 3600 = 0 := Nat.div_eq_of_lt hlt
    unfold updateUbiBalance
    rw [h]
    cases hv : acct.verified with
    | false => simp [hv]
    | true => simp [hv, hz]
  have hgrant : ∀ (s : RuntimeState) (addr : String) (now : Nat) (acct : Account),
      alookup s.accounts addr = some acct → acct.verified = true →
      acct.lastUbiClaim ≤ now → 3600 ≤ now - acct.lastUbiClaim →
      (updateUbiBalance s addr now).1 =
        (now - acct.lastUbiClaim) / 3600 * UBI_TOKENS_PER_HOUR ∧
      alookup (updateUbiBalance s addr now).2.accounts addr =
        some { acct with
          balance := acct.balance + (now - acct.lastUbiClaim) / 3600 * UBI_TOKENS_PER_HOUR,
          lastUbiClaim := acct.lastUbiClaim + 3600 * ((now - acct.lastUbiClaim) / 3600) } ∧
      (∀ a, a ≠ addr →
        alookup (updateUbiBalance s addr now).2.accounts a = alookup s.accounts a) := by
    intro s addr now acct hacct hver hle hhrs
    have hpos : 0 < (now - acct.lastUbiClaim) / 3600 :=
      Nat.div_pos hhrs (by norm_num)
    have key := updateUbiBalance_grant_eq s addr now acct hacct hver hpos
    have hclock : now - (now - acct.lastUbiClaim) % 3600 =
        acct.lastUbiClaim + 3600 * ((now - acct.lastUbiClaim) / 3600) := by
      omega
    refine ⟨by rw [key], ?_, ?_⟩
    · rw [key]
      show alookup (amodify _ addr _) addr = _
      rw [alookup_amodify_self, hacct]
      simp only [Option.map_some']
      rw [hclock]
    · intro a ha
      rw [key]
      show alookup (amodify _ addr _) a = _
      rw [alookup_amodify_ne _ _ _ _ ha]
  refine ⟨habsent, hunver, hsub, hgrant, ?_⟩
  intro s addr now now2 acct hacct hver hle hhrs hlt2
  obtain ⟨_, hacct', _⟩ := hgrant s addr now acct hacct hver hle hhrs
  have hlt : now2 - ({ acct with
      balance := acct.balance + (now - acct.lastUbiClaim) / 3600 * UBI_TOKENS_PER_HOUR,
      lastUbiClaim := acct.lastUbiClaim + 3600 * ((now - acct.lastUbiClaim) / 3600) }
        : Account).lastUbiClaim < 3600 := by
    show now2 - (acct.lastUbiClaim + 3600 * ((now - acct.lastUbiClaim) / 3600)) < 3600
    omega
  rw [hsub (updateUbiBalance s addr now).2 addr now2 _ hacct' hlt]

/-- Claim C6 witness: two hours and one second after the last claim the
grant is exactly 2 tokens, and an immediate second call within the same
hour grants 0. -/
theorem C6_witness :
    (updateUbiBalance oneAccountState addr1 7201).1 = 2 ∧
    (updateUbiBalance (updateUbiBalance oneAccountState addr1 7201).2 addr1 7300).1 = 0 := by
  refine ⟨?_, ?_⟩
  · have g := (C6_ubi_streaming.2.2.2.1 oneAccountState addr1 7201
      { address := addr1, balance := 1000, verified := true, lastUbiClaim := 0 }
      (by decide) (by decide) (by decide) (by decide)).1
    rw [g]
    decide
  · exact C6_ubi_streaming.2.2.2.2 oneAccountState addr1 7201 7300
      { address := addr1, balance := 1000, verified := true, lastUbiClaim := 0 }
      (by decide) (by decide) (by decide) (by decide) (by decide)

/-- Claim C7 (amended: the source's `AccountError` has no `SenderNotFound`
or `InsufficientBalance` variants; a missing sender yields
`Other("Sender account {from} not found")` and a short balance yields
`Other("Insufficient balance for transfer")`, while an invalid address
yields `InvalidAddress`): every failing `transfer_with_fee` returns the
stated error and leaves the entire runtime state unchanged. -/
theorem C7_transfer_error_taxonomy (s : RuntimeState) (fromAddr toAddr : String)
    (amount now : Nat) :
    (¬(isValidEthAddress fromAddr = true ∧ isValidEthAddress toAddr = true) →
      transferWithFee s fromAddr toAddr amount now =
        (Except.error AccountError.invalidAddress, s)) ∧
    (isValidEthAddress fromAddr = true → isValidEthAddress toAddr = true →
      alookup s.accounts fromAddr = none →
      transferWithFee s fromAddr toAddr amount now =
        (Except.error (AccountError.other ("Sender account " ++ fromAddr ++ " not found")),
          s)) ∧
    (∀ sender : Account, isValidEthAddress fromAddr = true → isValidEthAddress toAddr = true →
      alookup s.accounts fromAddr = some sender → sender.balance < amount →
      transferWithFee s fromAddr toAddr amount now =
        (Except.error (AccountError.other "Insufficient balance for transfer"), s)) := by
  refine ⟨?_, ?_, ?_⟩
  · intro h
    have hff : (isValidEthAddress fromAddr && isValidEthAddress toAddr) = false := by
      cases hf : isValidEthAddress fromAddr <;> cases ht : isValidEthAddress toAddr <;>
        simp_all
    unfold transferWithFee
    rw [hff]
    simp
  · intro hf ht hnone
    unfold transferWithFee
    rw [hf, ht, hnone]
    simp
  · intro sender hf ht hsender hlt
    unfold transferWithFee
    rw [hf, ht, hsender]
    simp [hlt]

/-- Claim C7 counterexample: transferring from the absent sender `addr2`
returns the catch-all string-carrying `AccountError::Other` value — the
error enum of the source has no `SenderNotFound` (nor `InsufficientBalance`)
variant, so the claimed dedicated errors are never produced. -/
theorem C7_counterexample :
    (transferWithFee oneAccountState addr2 addr3 5 0).1 =
      Except.error (AccountError.other ("Sender account " ++ addr2 ++ " not found")) ∧
    (transferWithFee oneAccountState addr2 addr3 5 0).1 ≠
      Except.error AccountError.invalidAddress ∧
    (transferWithFee oneAccountState addr2 addr3 5 0).1 ≠
      Except.error AccountError.alreadyExists := by
  refine ⟨by decide, by decide, by decide⟩

/-- Claim C7 witness: the amended taxonomy applied at three concrete failing
calls (invalid sender address; absent sender; balance 1000 below amount
2000), each leaving the state untouched. -/
theorem C7_witness :
    transferWithFee oneAccountState "bogus" addr2 5 0 =
      (Except.error AccountError.invalidAddress, oneAccountState) ∧
    transferWithFee oneAccountState addr2 addr3 5 0 =
      (Except.error (AccountError.other ("Sender account " ++ addr2 ++ " not found")),
        oneAccountState) ∧
    transferWithFee oneAccountState addr1 addr2 2000 0 =
      (Except.error (AccountError.other "Insufficient balance for transfer"),
        oneAccountState) := by
  refine ⟨(C7_transfer_error_taxonomy oneAccountState "bogus" addr2 5 0).1 (by decide),
    (C7_transfer_error_taxonomy oneAccountState addr2 addr3 5 0).2.1
      (by decide) (by decide) (by decide),
    (C7_transfer_error_taxonomy oneAccountState addr1 addr2 2000 0).2.2
      { address := addr1, balance := 1000, verified := true, lastUbiClaim := 0 }
      (by decide) (by decide) (by decide) (by decide)⟩

/-- Claim C9: a recipient account created by a successful transfer is
unverified (`verified = false`), unlike `create_account` which marks new
accounts `verified = true`; consequently `is_account_verified` returns
`false` for it and `update_ubi_balance` grants 0 (leaving the state
unchanged) until `verify_account` marks it verified. -/
theorem C9_transfer_creates_unverified (s : RuntimeState) (fromAddr toAddr : String)
    (amount now now2 : Nat) (sender : Account)
    (hvf : isValidEthAddress fromAddr = true)
    (hvt : isValidEthAddress toAddr = true)
    (hs : alookup s.accounts fromAddr = some sender)
    (hbal : amount ≤ sender.balance)
    (hto : alookup s.accounts toAddr = none) :
    (alookup (transferWithFee s fromAddr toAddr amount now).2.accounts toAddr =
      some { address := toAddr, balance := amount - amount / 100, verified := false,
             lastUbiClaim := now } ∧
     isAccountVerified (transferWithFee s fromAddr toAddr amount now).2 toAddr = false ∧
     updateUbiBalance (transferWithFee s fromAddr toAddr amount now).2 toAddr now2 =
       (0, (transferWithFee s fromAddr toAddr amount now).2)) ∧
    (∀ (s0 : RuntimeState) (a : String) (n : Nat), isValidEthAddress a = true →
      alookup s0.accounts a = none →
      (createAccount s0 a n).1 =
        Except.ok { address := a, balance := 0, verified := true, lastUbiClaim := n }) ∧
    (∀ (s0 : RuntimeState) (a : String) (acct : Account),
      alookup s0.accounts a = some acct →
      isAccountVerified (verifyAccount s0 a).2 a = true) := by
  have hne : fromAddr ≠ toAddr := by
    intro he
    rw [he, hto] at hs
    exact Option.noConfusion hs
  have hnlt : ¬ sender.balance < amount := Nat.not_lt.mpr hbal
  have hto1 : alookup (amodify s.accounts fromAddr
      (fun a => { a with balance := a.balance - amount })) toAddr = none := by
    rw [alookup_amodify_ne _ _ _ _ (Ne.symm hne), hto]
  have key : transferWithFee s fromAddr toAddr amount now =
      (Except.ok (), { s with
        accounts := amodify s.accounts fromAddr
            (fun a => { a with balance := a.balance - amount }) ++
          [(toAddr, { address := toAddr, balance := amount - amount / 100,
                      verified := false, lastUbiClaim := now })],
        feePool := s.feePool + amount / 100 }) := by
    unfold transferWithFee
    rw [hvf, hvt, hs]
    simp only [Bool.and_self, Bool.not_true, Bool.false_eq_true, if_false, hnlt, hto1]
  have hlook : alookup (transferWithFee s fromAddr toAddr amount now).2.accounts toAddr =
      some { address := toAddr, balance := amount - amount / 100, verified := false,
             lastUbiClaim := now } := by
    rw [key]
    show alookup (_ ++ _) toAddr = _
    rw [alookup_append_of_none _ _ _ hto1]
    simp [alookup]
  refine ⟨⟨hlook, ?_, ?_⟩, ?_, ?_⟩
  · unfold isAccountVerified
    rw [hlook]
  · unfold updateUbiBalance
    rw [hlook]
    simp
  · intro s0 a n hva hnone
    unfold createAccount
    rw [hva, hnone]
    simp
  · intro s0 a acct hacct
    unfold verifyAccount
    rw [hacct]
    unfold isAccountVerified
    show (match alookup (amodify s0.accounts a
      (fun x => { x with verified := true })) a with
      | some account => account.verified
      | none => false) = true
    rw [alookup_amodify_self, hacct]
    simp

/-- Claim C9 witness: transferring 100 tokens to the fresh `addr2` creates
it unverified, `is_account_verified` reports false, and a much later
`update_ubi_balance` still grants 0. -/
theorem C9_witness :
    alookup (transferWithFee oneAccountState addr1 addr2 100 5).2.accounts addr2 =
      some { address := addr2, balance := 100 - 100 / 100, verified := false,
             lastUbiClaim := 5 } ∧
    isAccountVerified (transferWithFee oneAccountState addr1 addr2 100 5).2 addr2 = false ∧
    (updateUbiBalance (transferWithFee oneAccountState addr1 addr2 100 5).2 addr2 999999).1
      = 0 := by
  have h := C9_transfer_creates_unverified oneAccountState addr1 addr2 100 5 999999
    { address := addr1, balance := 1000, verified := true, lastUbiClaim := 0 }
    (by decide) (by decide) (by decide) (by decide) (by decide)
  exact ⟨h.1.1, h.1.2.1, by rw [h.1.2.2]⟩

/-- Helper: `update_account_dividends` never changes the global
dividend-per-token accumulator. -/
theorem updateAccountDividends_dpt (s : RuntimeState) (a : String) :
    (updateAccountDividends s a).2.dividendPerToken = s.dividendPerToken := by
  unfold updateAccountDividends
  split
  · rfl
  · split
    · rfl
    · rfl

/-- Claim C8 (amended: the accumulator is non-decreasing under transfers,
fee distribution, dividend updates and claims, UBI updates and checkpoint
creation, but `load_checkpoint` resets it to zero once header validation
passes — so across a successful load it decreases whenever it was
positive): monotonicity of `dividend_per_token` per operation. -/
theorem C8_dividend_per_token_monotone :
    (∀ (s : RuntimeState) (f t : String) (a n : Nat),
      s.dividendPerToken ≤ (transferWithFee s f t a n).2.dividendPerToken) ∧
    (∀ s : RuntimeState, s.dividendPerToken ≤ (distributeFees s).2.dividendPerToken) ∧
    (∀ (s : RuntimeState) (a : String),
      s.dividendPerToken ≤ (updateAccountDividends s a).2.dividendPerToken) ∧
    (∀ (s : RuntimeState) (a : String),
      s.dividendPerToken ≤ (claimDividends s a).2.dividendPerToken) ∧
    (∀ (s : RuntimeState) (a : String) (n : Nat),
      s.dividendPerToken ≤ (updateUbiBalance s a n).2.dividendPerToken) ∧
    (∀ (s : RuntimeState) (force : Bool) (n : Nat),
      s.dividendPerToken ≤ (createCheckpoint s force n).2.2.dividendPerToken) ∧
    (∀ (s : RuntimeState) (cp : StateCheckpoint) (contents : Option (List FByte)) (n : Nat),
      (loadCheckpoint s cp contents n).2.dividendPerToken = 0 ∨
      (loadCheckpoint s cp contents n).2.dividendPerToken = s.dividendPerToken) := by
  refine ⟨?_, ?_, ?_, ?_, ?_, ?_, ?_⟩
  · intro s f t a n
    unfold transferWithFee
    split
    · exact le_refl _
    · split
      · exact le_refl _
      · split
        · exact le_refl _
        · exact le_refl _
  · intro s
    unfold distributeFees
    split
    · exact le_refl _
    · exact Nat.le_add_right _ _
  · intro s a
    rw [updateAccountDividends_dpt]
  · intro s a
    unfold claimDividends
    split
    · exact le_refl _
    · dsimp only
      split
      · show s.dividendPerToken ≤ (updateAccountDividends s a).2.dividendPerToken
        rw [updateAccountDividends_dpt]
      · show s.dividendPerToken ≤ (updateAccountDividends s a).2.dividendPerToken
        rw [updateAccountDividends_dpt]
  · intro s a n
    unfold updateUbiBalance
    split
    · exact le_refl _
    · split
      · dsimp only
        split
        · exact le_refl _
        · exact le_refl _
      · exact le_refl _
  · intro s force n
    unfold createCheckpoint
    dsimp only
    split
    · exact le_refl _
    · exact le_refl _
  · intro s cp contents n
    unfold loadCheckpoint
    split
    · right; rfl
    · split
      · right; rfl
      · split
        · right; rfl
        · split
          · right; rfl
          · split
            · right; rfl
            · split
              · right; rfl
              · split
                · right; rfl
                · split
                  · right; rfl
                  · split
                    · left; rfl
                    · left; rfl

/-- An otherwise-fresh state whose dividend accumulator is positive. -/
def positiveDividendState : RuntimeState := { RuntimeState.new with dividendPerToken := 5 }

/-- Claim C8 counterexample: a fully successful `load_checkpoint` resets
`dividend_per_token` from 5 to 0, so its value after the operation is not
greater than or equal to its value before. -/
theorem C8_reset_counterexample :
    positiveDividendState.dividendPerToken = 5 ∧
    (loadCheckpoint (createCheckpoint positiveDividendState true 100).2.2
      (createCheckpoint positiveDividendState true 100).1
      (createCheckpoint positiveDividendState true 100).2.1 100).1 = Except.ok () ∧
    (loadCheckpoint (createCheckpoint positiveDividendState true 100).2.2
      (createCheckpoint positiveDividendState true 100).1
      (createCheckpoint positiveDividendState true 100).2.1 100).2.dividendPerToken = 0 ∧
    ¬(5 : Nat) ≤ (loadCheckpoint (createCheckpoint positiveDividendState true 100).2.2
      (createCheckpoint positiveDividendState true 100).1
      (createCheckpoint positiveDividendState true 100).2.1 100).2.dividendPerToken := by
  refine ⟨by decide, by decide, by decide, by decide⟩

/-- `oneAccountState` with 100 tokens of collected fees. -/
def feePoolState : RuntimeState := { oneAccountState with feePool := 100 }

/-- Claim C10: the two unguarded u64 multiplications of the dividend engine
are exact (no wrap-around) precisely under the claimed preconditions —
`fee_pool < 2^64 / 10^9` for `fee_pool * DIVIDEND_PRECISION`, and
`balance * (dpt - last_point) < 2^64` (with `last_point ≤ dpt` for the
subtraction) for the owed-dividend product — under which `distribute_fees`
advances the accumulator by the exact mathematical increase; and for larger
u64-representable values the products wrap, as two concrete instances
show. -/
theorem C10_dividend_overflow_bounds :
    (∀ feePool totalSupply : Nat,
      feePool < 18446744073709551616 / DIVIDEND_PRECISION →
      dividendIncreaseU64 feePool totalSupply =
        feePool * DIVIDEND_PRECISION / totalSupply) ∧
    (∀ balance dpt lastPoint : Nat, lastPoint ≤ dpt → dpt < 18446744073709551616 →
      balance * (dpt - lastPoint) < 18446744073709551616 →
      newDividendsU64 balance dpt lastPoint =
        balance * (dpt - lastPoint) / DIVIDEND_PRECISION) ∧
    (∀ s : RuntimeState, s.feePool < 18446744073709551616 / DIVIDEND_PRECISION →
      ¬(s.totalSupply = 0 ∨ s.feePool = 0) →
      (distributeFees s).2.dividendPerToken =
        s.dividendPerToken + dividendIncreaseU64 s.feePool s.totalSupply) ∧
    dividendIncreaseU64 18446744074 1 ≠ 18446744074 * DIVIDEND_PRECISION / 1 ∧
    newDividendsU64 4294967296 4294967296 0 ≠
      4294967296 * 4294967296 / DIVIDEND_PRECISION := by
  have hPpos : 0 < DIVIDEND_PRECISION := by decide
  have hexact : ∀ feePool totalSupply : Nat,
      feePool < 18446744073709551616 / DIVIDEND_PRECISION →
      dividendIncreaseU64 feePool totalSupply =
        feePool * DIVIDEND_PRECISION / totalSupply := by
    intro fp T h
    have hlt : fp * DIVIDEND_PRECISION < 18446744073709551616 := by
      calc fp * DIVIDEND_PRECISION
          < (fp + 1) * DIVIDEND_PRECISION :=
            Nat.mul_lt_mul_of_lt_of_le (Nat.lt_succ_self fp) (le_refl _) hPpos
        _ ≤ (18446744073709551616 / DIVIDEND_PRECISION) * DIVIDEND_PRECISION :=
            Nat.mul_le_mul_right _ h
        _ ≤ 18446744073709551616 := Nat.div_mul_le_self _ _
    unfold dividendIncreaseU64 wrap64
    rw [Nat.mod_eq_of_lt hlt]
  refine ⟨hexact, ?_, ?_, by decide, by decide⟩
  · intro balance dpt lastPoint hle hdlt hlt
    have hd : sub64 dpt lastPoint = dpt - lastPoint := by
      unfold sub64 wrap64
      omega
    unfold newDividendsU64
    rw [hd]
    unfold wrap64
    rw [Nat.mod_eq_of_lt hlt]
  · intro s hfp hcond
    unfold distributeFees
    rw [if_neg hcond]
    rw [hexact s.feePool s.totalSupply hfp]

/-- Claim C10 witness: the overflow-freedom bounds applied at concrete
values (fee pool 100 over supply 1000; balance 500 against an accumulator
point difference of 10^8), and `distribute_fees` on a concrete state. -/
theorem C10_witness :
    dividendIncreaseU64 100 1000 = 100 * DIVIDEND_PRECISION / 1000 ∧
    newDividendsU64 500 100000000 0 = 500 * 100000000 / DIVIDEND_PRECISION ∧
    (distributeFees feePoolState).2.dividendPerToken =
      feePoolState.dividendPerToken +
        dividendIncreaseU64 feePoolState.feePool feePoolState.totalSupply := by
  refine ⟨C10_dividend_overflow_bounds.1 100 1000 (by decide), ?_, ?_⟩
  · have h := C10_dividend_overflow_bounds.2.1 500 100000000 0
      (by decide) (by decide) (by decide)
    simpa using h
  · exact C10_dividend_overflow_bounds.2.2.1 feePoolState (by decide) (by decide)

/-- Checkpoint scenario: one account (balance 100, verified, last claim at
second 50), fee pool 2, total supply 100. -/
def checkpointState : RuntimeState := { RuntimeState.new with
  accounts := [(addr1,
    { address := addr1, balance := 100, verified := true, lastUbiClaim := 50 })],
  feePool := 2, totalSupply := 100 }

/-- The checkpoint created from `checkpointState` at clock second 1000. -/
def checkpointAt1000 : StateCheckpoint × Option (List FByte) × RuntimeState :=
  createCheckpoint checkpointState true 1000

/-- The state after a further mutation (a UBI update at second 50000). -/
def mutatedAfterCheckpoint : RuntimeState :=
  (updateUbiBalance checkpointAt1000.2.2 addr1 50000).2

/-- Loading the earlier checkpoint at clock second 1001. -/
def loadedAt1001 : Except String Unit × RuntimeState :=
  loadCheckpoint mutatedAfterCheckpoint checkpointAt1000.1 checkpointAt1000.2.1 1001

/-- Claim C2 (code bug): the checkpoint round-trip restores every account
field exactly, but the Merkle root recomputed from the restored accounts
does not equal the stored `root_hash`, because both `create_checkpoint` and
`load_checkpoint` serialize the current wall clock into every leaf's
`last_update` — loading one second after creation already rebuilds a
different root. -/
theorem C2_checkpoint_roundtrip_root_mismatch :
    loadedAt1001.1 = Except.ok () ∧
    alookup loadedAt1001.2.accounts addr1 =
      some { address := addr1, balance := 100, verified := true, lastUbiClaim := 50 } ∧
    loadedAt1001.2.feePool = checkpointState.feePool ∧
    loadedAt1001.2.totalSupply = checkpointState.totalSupply ∧
    loadedAt1001.2.stateTree.rootHash ≠ checkpointAt1000.1.rootHash := by
  refine ⟨by decide, by decide, by decide, by decide, by decide⟩

/-- Checkpoint metadata whose backing file is truncated right after the
header (it announces one account record but contains none). -/
def truncatedCheckpoint : StateCheckpoint :=
  { timestamp := 7, rootHash := none, accountCount := 1, totalSupply := 55,
    feePool := 9, filePath := "./checkpoints/checkpoint_7.dat" }

/-- The truncated checkpoint file: a valid 61-byte header (timestamp 7,
all-zero root, account count 1, total supply 55, fee pool 9) and no account
records. -/
def truncatedFile : List FByte :=
  writeU64 7 ++ [FByte.hashBlock none] ++ writeU64 1 ++ writeU64 55 ++ writeU64 9

/-- Loading the truncated checkpoint over the live `checkpointState`. -/
def loadedTruncated : Except String Unit × RuntimeState :=
  loadCheckpoint checkpointState truncatedCheckpoint (some truncatedFile) 0

/-- Claim C3 (code bug): a `load_checkpoint` whose file passes header
validation but is truncated before the account records returns an error
after having already cleared the account map and overwritten the fee pool,
total supply and dividend accumulators — the live state is not left as it
was, contradicting the claimed fail-closed behaviour. -/
theorem C3_load_checkpoint_partial_mutation :
    (∃ msg, loadedTruncated.1 = Except.error msg) ∧
    loadedTruncated.2.accounts = [] ∧
    checkpointState.accounts ≠ [] ∧
    loadedTruncated.2.feePool = 9 ∧
    checkpointState.feePool = 2 ∧
    loadedTruncated.2.totalSupply = 55 ∧
    checkpointState.totalSupply = 100 ∧
    loadedTruncated.2 ≠ checkpointState := by
  refine ⟨⟨"failed to fill whole buffer", by decide⟩,
    by decide, by decide, by decide, by decide, by decide, by decide, by decide⟩

/-- The Merkle leaf payload of the single-account proof scenario. -/
def singleLeafState : AccountState :=
  { baseBalance := 100, lastUpdate := 1000, streamingRate := 1 }

/-- A tree holding exactly one account. -/
def singleLeafTree : MerkleTree :=
  MerkleTree.new.updateAccount addr1 singleLeafState

/-- Claim C4 (code bug): for a tree with a single account the root is
`H(leaf || leaf)` (the odd level is padded with a duplicate), but
`generate_proof` returns the empty proof, so `verify_proof` folds nothing
and compares the bare leaf hash against the root — the round-trip that the
claim asserts for every address present in the tree fails already here. -/
theorem C4_merkle_proof_roundtrip_fails :
    singleLeafTree.generateProof addr1 = some [] ∧
    singleLeafTree.rootHash =
      some (Hash.node (Hash.leaf (serializeAccountState addr1 singleLeafState))
        (Hash.leaf (serializeAccountState addr1 singleLeafState))) ∧
    MerkleTree.verifyProof
      (Hash.node (Hash.leaf (serializeAccountState addr1 singleLeafState))
        (Hash.leaf (serializeAccountState addr1 singleLeafState)))
      addr1 singleLeafState [] = false := by
  refine ⟨by decide, by decide, by decide⟩

/-- The balance the ledger holds for an address (0 when absent). -/
def balanceAt (s : RuntimeState) (a : String) : Nat :=
  ((alookup s.accounts a).map Account.balance).getD 0

/-- Helper: one `claim_dividends` call on a caught-up account (last dividend
point lagging the accumulator by exactly `q`, nothing unclaimed) pays out
`balance * q / DIVIDEND_PRECISION` and leaves every other address's
account, dividend point and unclaimed record untouched. -/
theorem claimDividends_caught_up (s : RuntimeState) (a : String) (acct : Account) (q : Nat)
    (hva : isValidEthAddress a = true)
    (hacct : alookup s.accounts a = some acct)
    (hlp : alookupD s.lastDividendPoints a 0 + q = s.dividendPerToken)
    (hu : alookupD s.unclaimedDividends a 0 = 0) :
    (claimDividends s a).1 = acct.balance * q / DIVIDEND_PRECISION ∧
    (claimDividends s a).2.dividendPerToken = s.dividendPerToken ∧
    (∀ a', a' ≠ a →
      alookup (claimDividends s a).2.accounts a' = alookup s.accounts a' ∧
      alookupD (claimDividends s a).2.lastDividendPoints a' 0 =
        alookupD s.lastDividendPoints a' 0 ∧
      alookupD (claimDividends s a).2.unclaimedDividends a' 0 =
        alookupD s.unclaimedDividends a' 0) := by
  have hdiff : s.dividendPerToken - alookupD s.lastDividendPoints a 0 = q := by omega
  have hupd : updateAccountDividends s a =
      (acct.balance * q / DIVIDEND_PRECISION,
        { s with
          lastDividendPoints := ainsert s.lastDividendPoints a s.dividendPerToken,
          unclaimedDividends :=
            if acct.balance * q / DIVIDEND_PRECISION > 0 then
              ainsert s.unclaimedDividends a
                (alookupD s.unclaimedDividends a 0 + acct.balance * q / DIVIDEND_PRECISION)
            else s.unclaimedDividends }) := by
    unfold updateAccountDividends
    rw [hva]
    simp only [Bool.not_true, Bool.false_eq_true, if_false]
    rw [hacct, hdiff]
  by_cases hz : acct.balance * q / DIVIDEND_PRECISION = 0
  · have hkey : claimDividends s a =
        (0, { s with
          lastDividendPoints := ainsert s.lastDividendPoints a s.dividendPerToken }) := by
      unfold claimDividends
      rw [hva]
      simp only [Bool.not_true, Bool.false_eq_true, if_false]
      rw [hupd]
      simp only [hz, gt_iff_lt, lt_irrefl, if_false]
      rw [if_pos hu]
    rw [hkey, hz]
    refine ⟨rfl, rfl, ?_⟩
    intro a' ha'
    refine ⟨rfl, ?_, rfl⟩
    show alookupD (ainsert s.lastDividendPoints a s.dividendPerToken) a' 0 = _
    unfold alookupD
    rw [alookup_ainsert_ne _ _ _ _ ha']
  · have hpos : 0 < acct.balance * q / DIVIDEND_PRECISION := Nat.pos_of_ne_zero hz
    have hget : alookupD (ainsert s.unclaimedDividends a
        (alookupD s.unclaimedDividends a 0 + acct.balance * q / DIVIDEND_PRECISION)) a 0 =
        acct.balance * q / DIVIDEND_PRECISION := by
      unfold alookupD at hu ⊢
      rw [alookup_ainsert_self]
      simp [hu]
    have hkey : claimDividends s a =
        (acct.balance * q / DIVIDEND_PRECISION,
          { s with
            lastDividendPoints := ainsert s.lastDividendPoints a s.dividendPerToken,
            unclaimedDividends := ainsert (ainsert s.unclaimedDividends a
              (alookupD s.unclaimedDividends a 0 +
                acct.balance * q / DIVIDEND_PRECISION)) a 0,
            accounts := amodify s.accounts a (fun x =>
              { x with balance := x.balance + acct.balance * q / DIVIDEND_PRECISION }) }) := by
      unfold claimDividends
      rw [hva]
      simp only [Bool.not_true, Bool.false_eq_true, if_false]
      rw [hupd]
      simp only [gt_iff_lt, hpos, if_true]
      rw [hget, if_neg hz]
    rw [hkey]
    refine ⟨rfl, rfl, ?_⟩
    intro a' ha'
    refine ⟨?_, ?_, ?_⟩
    · show alookup (amodify s.accounts a _) a' = _
      rw [alookup_amodify_ne _ _ _ _ ha']
    · show alookupD (ainsert s.lastDividendPoints a s.dividendPerToken) a' 0 = _
      unfold alookupD
      rw [alookup_ainsert_ne _ _ _ _ ha']
    · show alookupD (ainsert (ainsert s.unclaimedDividends a _) a 0) a' 0 = _
      unfold alookupD
      rw [alookup_ainsert_ne _ _ _ _ ha', alookup_ainsert_ne _ _ _ _ ha']

/-- Helper: mapping equal functions over a list (pointwise on members). -/
theorem list_map_congr_mem {α β : Type} (l : List α) (f g : α → β)
    (h : ∀ a ∈ l, f a = g a) : l.map f = l.map g := by
  induction l with
  | nil => rfl
  | cons x xs ih =>
    simp only [List.map_cons]
    rw [h x (List.mem_cons_self x xs), ih (fun a ha => h a (List.mem_cons.mpr (Or.inr ha)))]

/-- Helper: claiming dividends for a list of distinct caught-up addresses
pays each one `balance * q / DIVIDEND_PRECISION` computed from the balances
before any of the claims. -/
theorem claimAll_caught_up (keys : List String) : ∀ (s : RuntimeState) (q : Nat),
    keys.Nodup →
    (∀ a ∈ keys, isValidEthAddress a = true ∧
      (alookup s.accounts a).isSome = true ∧
      alookupD s.lastDividendPoints a 0 + q = s.dividendPerToken ∧
      alookupD s.unclaimedDividends a 0 = 0) →
    (claimAll s keys).1 = keys.map (fun a => balanceAt s a * q / DIVIDEND_PRECISION) := by
  induction keys with
  | nil =>
    intro s q _ _
    rfl
  | cons a rest ih =>
    intro s q hnodup hinv
    obtain ⟨hrest_notmem, hrest_nodup⟩ := List.nodup_cons.mp hnodup
    obtain ⟨hva, hsome, hlp, hu⟩ := hinv a (List.mem_cons_self a rest)
    obtain ⟨acct, hacct⟩ := Option.isSome_iff_exists.mp hsome
    obtain ⟨h1, h2, h3⟩ := claimDividends_caught_up s a acct q hva hacct hlp hu
    have hstep : (claimAll s (a :: rest)).1 =
        (claimDividends s a).1 :: (claimAll (claimDividends s a).2 rest).1 := rfl
    rw [hstep, h1]
    have hinv' : ∀ b ∈ rest, isValidEthAddress b = true ∧
        (alookup (claimDividends s a).2.accounts b).isSome = true ∧
        alookupD (claimDividends s a).2.lastDividendPoints b 0 + q =
          (claimDividends s a).2.dividendPerToken ∧
        alookupD (claimDividends s a).2.unclaimedDividends b 0 = 0 := by
      intro b hb
      have hbne : b ≠ a := by
        intro he
        exact hrest_notmem (he ▸ hb)
      obtain ⟨hvb, hsb, hlb, hub⟩ := hinv b (List.mem_cons.mpr (Or.inr hb))
      obtain ⟨hacc, hlp', hun⟩ := h3 b hbne
      exact ⟨hvb, by rw [hacc]; exact hsb, by rw [hlp', h2]; exact hlb, by rw [hun]; exact hub⟩
    rw [ih (claimDividends s a).2 q hrest_nodup hinv']
    have hbal : balanceAt s a = acct.balance := by
      unfold balanceAt
      rw [hacct]
      rfl
    have hmaps : rest.map (fun b => balanceAt (claimDividends s a).2 b * q / DIVIDEND_PRECISION)
        = rest.map (fun b => balanceAt s b * q / DIVIDEND_PRECISION) := by
      apply list_map_congr_mem
      intro b hb
      have hbne : b ≠ a := by
        intro he
        exact hrest_notmem (he ▸ hb)
      obtain ⟨hacc, _, _⟩ := h3 b hbne
      unfold balanceAt
      rw [hacc]
    simp only [List.map_cons]
    rw [hbal, hmaps]

/-- Helper: `distribute_fees` (with a nonzero supply) leaves accounts and
per-account dividend bookkeeping alone and advances the accumulator by
exactly `fee_pool * DIVIDEND_PRECISION / total_supply` (zero fees included,
where the increase is zero). -/
theorem distributeFees_eq (s : RuntimeState) (hT : s.totalSupply ≠ 0) :
    (distributeFees s).2.accounts = s.accounts ∧
    (distributeFees s).2.lastDividendPoints = s.lastDividendPoints ∧
    (distributeFees s).2.unclaimedDividends = s.unclaimedDividends ∧
    (distributeFees s).2.dividendPerToken =
      s.dividendPerToken + s.feePool * DIVIDEND_PRECISION / s.totalSupply := by
  unfold distributeFees
  by_cases hF : s.feePool = 0
  · simp [hT, hF]
  · simp [hT, hF]

/-- Helper: truncating division distributes sub-additively. -/
theorem div_add_div_le_precision (x y : Nat) :
    x / DIVIDEND_PRECISION + y / DIVIDEND_PRECISION ≤ (x + y) / DIVIDEND_PRECISION := by
  simp only [DIVIDEND_PRECISION]
  omega

/-- Helper: the sum of the individual truncated shares is at most the
truncated share of the summed balance. -/
theorem sum_shares_le (l : List Nat) (q : Nat) :
    (l.map (fun b => b * q / DIVIDEND_PRECISION)).sum ≤ l.sum * q / DIVIDEND_PRECISION := by
  induction l with
  | nil => simp
  | cons b rest ih =>
    simp only [List.map_cons, List.sum_cons]
    calc b * q / DIVIDEND_PRECISION +
          (rest.map (fun b => b * q / DIVIDEND_PRECISION)).sum
        ≤ b * q / DIVIDEND_PRECISION + rest.sum * q / DIVIDEND_PRECISION :=
          Nat.add_le_add_left ih _
      _ ≤ (b * q + rest.sum * q) / DIVIDEND_PRECISION := div_add_div_le_precision _ _
      _ = (b + rest.sum) * q / DIVIDEND_PRECISION := by rw [Nat.add_mul]

/-- Helper: each share loses less than one whole `DIVIDEND_PRECISION` unit,
so the scaled sum of shares plus one unit per account dominates the scaled
total. -/
theorem sum_shares_ge (l : List Nat) (q : Nat) :
    l.sum * q ≤
      DIVIDEND_PRECISION *
        ((l.map (fun b => b * q / DIVIDEND_PRECISION)).sum + l.length) := by
  induction l with
  | nil => simp
  | cons b rest ih =>
    simp only [List.map_cons, List.sum_cons, List.length_cons]
    have hb : b * q ≤ DIVIDEND_PRECISION * (b * q / DIVIDEND_PRECISION) +
        DIVIDEND_PRECISION := by
      simp only [DIVIDEND_PRECISION]
      omega
    calc (b + rest.sum) * q = b * q + rest.sum * q := by rw [Nat.add_mul]
      _ ≤ (DIVIDEND_PRECISION * (b * q / DIVIDEND_PRECISION) + DIVIDEND_PRECISION) +
          DIVIDEND_PRECISION *
            ((rest.map (fun b => b * q / DIVIDEND_PRECISION)).sum + rest.length) :=
          Nat.add_le_add hb ih
      _ = DIVIDEND_PRECISION *
          ((b * q / DIVIDEND_PRECISION +
            (rest.map (fun b => b * q / DIVIDEND_PRECISION)).sum) + (rest.length + 1)) := by
          ring

/-- Helper: an account's truncated share never exceeds its exact
proportional entitlement. -/
theorem share_le (b F T : Nat) (hT : 0 < T) :
    b * (F * DIVIDEND_PRECISION / T) / DIVIDEND_PRECISION ≤ F * b / T := by
  have hPpos : 0 < DIVIDEND_PRECISION := by decide
  rw [Nat.le_div_iff_mul_le hT]
  apply Nat.le_of_mul_le_mul_right _ hPpos
  calc b * (F * DIVIDEND_PRECISION / T) / DIVIDEND_PRECISION * T * DIVIDEND_PRECISION
      = b * (F * DIVIDEND_PRECISION / T) / DIVIDEND_PRECISION * DIVIDEND_PRECISION * T := by
        ring
    _ ≤ b * (F * DIVIDEND_PRECISION / T) * T :=
        Nat.mul_le_mul_right T (Nat.div_mul_le_self _ _)
    _ = F * DIVIDEND_PRECISION / T * T * b := by ring
    _ ≤ F * DIVIDEND_PRECISION * b := Nat.mul_le_mul_right b (Nat.div_mul_le_self _ _)
    _ = F * b * DIVIDEND_PRECISION := by ring

/-- Helper: an account's truncated share falls short of its exact
proportional entitlement by at most `1 + balance / DIVIDEND_PRECISION`. -/
theorem share_ge (b F T : Nat) (hT : 0 < T) :
    F * b / T ≤ b * (F * DIVIDEND_PRECISION / T) / DIVIDEND_PRECISION
      + b / DIVIDEND_PRECISION + 1 := by
  by_cases hb0 : b = 0
  · subst hb0
    simp
  · have hbpos : 0 < b := Nat.pos_of_ne_zero hb0
    have hstrict : F * b / T < b * (F * DIVIDEND_PRECISION / T) / DIVIDEND_PRECISION
        + b / DIVIDEND_PRECISION + 2 := by
      rw [Nat.div_lt_iff_lt_mul hT]
      apply lt_of_mul_lt_mul_right _ (Nat.zero_le DIVIDEND_PRECISION)
      have hF : F * DIVIDEND_PRECISION <
          T * (F * DIVIDEND_PRECISION / T) + T := by
        have hdm := Nat.div_add_mod (F * DIVIDEND_PRECISION) T
        have hml := Nat.mod_lt (F * DIVIDEND_PRECISION) hT
        omega
      have hbq : b * (F * DIVIDEND_PRECISION / T) <
          DIVIDEND_PRECISION *
            (b * (F * DIVIDEND_PRECISION / T) / DIVIDEND_PRECISION) +
          DIVIDEND_PRECISION := by
        simp only [DIVIDEND_PRECISION]
        omega
      have hb2 : b < DIVIDEND_PRECISION * (b / DIVIDEND_PRECISION) +
          DIVIDEND_PRECISION := by
        simp only [DIVIDEND_PRECISION]
        omega
      calc F * b * DIVIDEND_PRECISION
          = b * (F * DIVIDEND_PRECISION) := by ring
        _ < b * (T * (F * DIVIDEND_PRECISION / T) + T) :=
            mul_lt_mul_of_pos_left hF hbpos
        _ = T * (b * (F * DIVIDEND_PRECISION / T)) + b * T := by ring
        _ < T * (DIVIDEND_PRECISION *
              (b * (F * DIVIDEND_PRECISION / T) / DIVIDEND_PRECISION) +
              DIVIDEND_PRECISION) + b * T := by
            exact Nat.add_lt_add_right (mul_lt_mul_of_pos_left hbq hT) _
        _ ≤ T * (DIVIDEND_PRECISION *
              (b * (F * DIVIDEND_PRECISION / T) / DIVIDEND_PRECISION) +
              DIVIDEND_PRECISION) +
            (DIVIDEND_PRECISION * (b / DIVIDEND_PRECISION) + DIVIDEND_PRECISION) * T := by
            exact Nat.add_le_add_left (Nat.mul_le_mul_right T (le_of_lt hb2)) _
        _ = (b * (F * DIVIDEND_PRECISION / T) / DIVIDEND_PRECISION +
              b / DIVIDEND_PRECISION + 2) * T * DIVIDEND_PRECISION := by ring
    omega

/-- Claim C5 (amended: with `q = F * 10^9 / T` the per-account share is
`b_i * q / 10^9`, which can fall short of the exact `F * b_i / T` by up to
`1 + b_i / 10^9` rather than 1, and the claimed sum can fall short of `F`
by up to `k + T / 10^9` rather than `k`, because the accumulator increase
`q` itself truncates — for `T > F * 10^9` it truncates to zero and the
whole pool is lost, see the counterexample): after one `distribute_fees`
over total supply `T = Σ b_i` and a claim for each of the `k` accounts,
the individual claims are exactly `b_i * q / 10^9`, their sum is at most
`F`, at least `F - k - T / 10^9`, and each claim is within
`1 + b_i / 10^9` of `F * b_i / T`. -/
theorem C5_dividend_conservation_amended (s : RuntimeState)
    (hnodup : (s.accounts.map Prod.fst).Nodup)
    (hvalid : ∀ p ∈ s.accounts, isValidEthAddress p.1 = true)
    (hT : s.totalSupply = (s.accounts.map (fun p => p.2.balance)).sum)
    (hTpos : 0 < s.totalSupply)
    (hcaught : ∀ p ∈ s.accounts, alookupD s.lastDividendPoints p.1 0 = s.dividendPerToken)
    (hunclaimed : ∀ p ∈ s.accounts, alookupD s.unclaimedDividends p.1 0 = 0) :
    (claimAll (distributeFees s).2 (s.accounts.map Prod.fst)).1 =
      s.accounts.map (fun p =>
        p.2.balance * (s.feePool * DIVIDEND_PRECISION / s.totalSupply) /
          DIVIDEND_PRECISION) ∧
    (claimAll (distributeFees s).2 (s.accounts.map Prod.fst)).1.sum ≤ s.feePool ∧
    s.feePool ≤ (claimAll (distributeFees s).2 (s.accounts.map Prod.fst)).1.sum +
      s.accounts.length + s.totalSupply / DIVIDEND_PRECISION ∧
    (∀ p ∈ s.accounts,
      p.2.balance * (s.feePool * DIVIDEND_PRECISION / s.totalSupply) / DIVIDEND_PRECISION ≤
        s.feePool * p.2.balance / s.totalSupply ∧
      s.feePool * p.2.balance / s.totalSupply ≤
        p.2.balance * (s.feePool * DIVIDEND_PRECISION / s.totalSupply) / DIVIDEND_PRECISION +
          p.2.balance / DIVIDEND_PRECISION + 1) := by
  have hTne : s.totalSupply ≠ 0 := Nat.pos_iff_ne_zero.mp hTpos
  obtain ⟨hacc, hlpts, hucl, hdpt⟩ := distributeFees_eq s hTne
  have hmem_lookup : ∀ p ∈ s.accounts, alookup s.accounts p.1 = some p.2 := by
    intro p hp
    have hp' : (p.1, p.2) ∈ s.accounts := by rw [Prod.mk.eta]; exact hp
    exact alookup_of_mem_nodup _ _ _ hp' hnodup
  have hinv : ∀ a ∈ s.accounts.map Prod.fst, isValidEthAddress a = true ∧
      (alookup (distributeFees s).2.accounts a).isSome = true ∧
      alookupD (distributeFees s).2.lastDividendPoints a 0 +
        s.feePool * DIVIDEND_PRECISION / s.totalSupply =
          (distributeFees s).2.dividendPerToken ∧
      alookupD (distributeFees s).2.unclaimedDividends a 0 = 0 := by
    intro a ha
    obtain ⟨p, hp, hpa⟩ := List.mem_map.mp ha
    subst hpa
    refine ⟨hvalid p hp, ?_, ?_, ?_⟩
    · rw [hacc, hmem_lookup p hp]
      rfl
    · rw [hlpts, hdpt, hcaught p hp]
    · rw [hucl]
      exact hunclaimed p hp
  have hclaims := claimAll_caught_up (s.accounts.map Prod.fst) (distributeFees s).2
    (s.feePool * DIVIDEND_PRECISION / s.totalSupply) hnodup hinv
  have hconv : (s.accounts.map Prod.fst).map
      (fun a => balanceAt (distributeFees s).2 a *
        (s.feePool * DIVIDEND_PRECISION / s.totalSupply) / DIVIDEND_PRECISION) =
      s.accounts.map (fun p =>
        p.2.balance * (s.feePool * DIVIDEND_PRECISION / s.totalSupply) /
          DIVIDEND_PRECISION) := by
    rw [List.map_map]
    apply list_map_congr_mem
    intro p hp
    show balanceAt (distributeFees s).2 p.1 *
        (s.feePool * DIVIDEND_PRECISION / s.totalSupply) / DIVIDEND_PRECISION = _
    unfold balanceAt
    rw [hacc, hmem_lookup p hp]
    rfl
  have hlist : (claimAll (distributeFees s).2 (s.accounts.map Prod.fst)).1 =
      s.accounts.map (fun p =>
        p.2.balance * (s.feePool * DIVIDEND_PRECISION / s.totalSupply) /
          DIVIDEND_PRECISION) := by
    rw [hclaims, hconv]
  have hsum_le : (s.accounts.map (fun p =>
      p.2.balance * (s.feePool * DIVIDEND_PRECISION / s.totalSupply) /
        DIVIDEND_PRECISION)).sum ≤ s.feePool := by
    have hkey := sum_shares_le (s.accounts.map (fun p => p.2.balance))
      (s.feePool * DIVIDEND_PRECISION / s.totalSupply)
    rw [List.map_map] at hkey
    simp only [Function.comp_def] at hkey
    rw [← hT] at hkey
    have h1 : s.totalSupply * (s.feePool * DIVIDEND_PRECISION / s.totalSupply) ≤
        s.feePool * DIVIDEND_PRECISION := by
      rw [Nat.mul_comm]
      exact Nat.div_mul_le_self _ _
    calc (s.accounts.map (fun p =>
          p.2.balance * (s.feePool * DIVIDEND_PRECISION / s.totalSupply) /
            DIVIDEND_PRECISION)).sum
        ≤ s.totalSupply * (s.feePool * DIVIDEND_PRECISION / s.totalSupply) /
            DIVIDEND_PRECISION := hkey
      _ ≤ s.feePool * DIVIDEND_PRECISION / DIVIDEND_PRECISION := Nat.div_le_div_right h1
      _ = s.feePool := Nat.mul_div_cancel s.feePool (by decide)
  have hsum_ge : s.feePool ≤ (s.accounts.map (fun p =>
      p.2.balance * (s.feePool * DIVIDEND_PRECISION / s.totalSupply) /
        DIVIDEND_PRECISION)).sum + s.accounts.length +
      s.totalSupply / DIVIDEND_PRECISION := by
    have hge := sum_shares_ge (s.accounts.map (fun p => p.2.balance))
      (s.feePool * DIVIDEND_PRECISION / s.totalSupply)
    rw [List.map_map] at hge
    simp only [Function.comp_def] at hge
    rw [← hT, List.length_map] at hge
    have hF : s.feePool * DIVIDEND_PRECISION <
        s.totalSupply * (s.feePool * DIVIDEND_PRECISION / s.totalSupply) +
          s.totalSupply := by
      have hdm := Nat.div_add_mod (s.feePool * DIVIDEND_PRECISION) s.totalSupply
      have hml := Nat.mod_lt (s.feePool * DIVIDEND_PRECISION) hTpos
      omega
    simp only [DIVIDEND_PRECISION] at hge hF ⊢
    omega
  refine ⟨hlist, by rw [hlist]; exact hsum_le, by rw [hlist]; exact hsum_ge, ?_⟩
  intro p _
  exact ⟨share_le p.2.balance s.feePool s.totalSupply hTpos,
    share_ge p.2.balance s.feePool s.totalSupply hTpos⟩

/-- State for the C5 counterexample: one account holding the whole supply
of 10^10 tokens, with a fee pool of 3. -/
def hugeSupplyState : RuntimeState := { RuntimeState.new with
  accounts := [(addr1,
    { address := addr1, balance := 10000000000, verified := true, lastUbiClaim := 0 })],
  totalSupply := 10000000000, feePool := 3 }

/-- Claim C5 counterexample: with `T = b_1 = 10^10` and `F = 3` (and `k = 1`)
the accumulator increase `3 * 10^9 / 10^10` truncates to zero, so the single
account claims 0 — the sum of claims is 0, below the claimed lower bound
`F - k = 2`, and the individual claim misses `F * b_1 / T = 3` by 3 > 1. -/
theorem C5_counterexample :
    (claimAll (distributeFees hugeSupplyState).2 [addr1]).1 = [0] ∧
    (claimAll (distributeFees hugeSupplyState).2 [addr1]).1.sum = 0 ∧
    ¬((3 : Nat) - 1 ≤ 0) ∧
    hugeSupplyState.feePool * 10000000000 / hugeSupplyState.totalSupply = 3 ∧
    ¬((3 : Nat) ≤ 0 + 1) := by
  refine ⟨by decide, by decide, by decide, by decide, by decide⟩

/-- The spec's worked example: balances 500/300/200, supply 1000, fees 100. -/
def threeAccountState : RuntimeState := { RuntimeState.new with
  accounts := [
    (addr1, { address := addr1, balance := 500, verified := true, lastUbiClaim := 0 }),
    (addr2, { address := addr2, balance := 300, verified := true, lastUbiClaim := 0 }),
    (addr3, { address := addr3, balance := 200, verified := true, lastUbiClaim := 0 })],
  totalSupply := 1000, feePool := 100 }

/-- Claim C5 witness: the amended conservation theorem applied to the spec's
500/300/200 example (supply 1000, fee pool 100). -/
theorem C5_witness :
    (claimAll (distributeFees threeAccountState).2
      (threeAccountState.accounts.map Prod.fst)).1 =
      threeAccountState.accounts.map (fun p =>
        p.2.balance * (threeAccountState.feePool * DIVIDEND_PRECISION /
          threeAccountState.totalSupply) / DIVIDEND_PRECISION) ∧
    (claimAll (distributeFees threeAccountState).2
      (threeAccountState.accounts.map Prod.fst)).1.sum ≤ threeAccountState.feePool ∧
    threeAccountState.feePool ≤ (claimAll (distributeFees threeAccountState).2
      (threeAccountState.accounts.map Prod.fst)).1.sum +
      threeAccountState.accounts.length +
      threeAccountState.totalSupply / DIVIDEND_PRECISION := by
  have h := C5_dividend_conservation_amended threeAccountState
    (by decide) (by decide) (by decide) (by decide) (by decide) (by decide)
  exact ⟨h.1, h.2.1, h.2.2.1⟩
